import Mathlib

/-
Verification of the job-lifecycle logging and live-tail streaming subsystem
of `src/app/server.py` (WorldGen API server).

The Python source is shallowly embedded:
* the on-disk log directory becomes a map from paths to line sequences (`FS`);
* `_log` (server.py:42-47) becomes a pure update of that map;
* `_heartbeat` (server.py:65-79) becomes a fuel-indexed trace of the loop's
  actions, with the `threading.Event` stop signal modelled as a monotone
  boolean function of time (`eventIsSet`);
* the two job handlers `generate_text` (server.py:87-139) and
  `generate_image` (server.py:142-194) become state-passing functions whose
  external collaborators (WorldGen, open3d, result.save) are oracles in `Env`;
* `download_file` (server.py:223-232) and `stream_logs`/`event_stream`
  (server.py:235-258) become pure functions / step machines.

Timestamps, elapsed-time renderings and tracebacks are opaque strings
supplied by clock/environment parameters; their content is irrelevant to
every property proved here.
-/

/-- A log line as written by `_log`: `[ts] msg` (server.py:45). -/
structure LogLine where
  ts : String
  msg : String
deriving DecidableEq, Repr

/-- The durable store: one optional sequence of lines per path.
`none` means the file does not exist (`os.path.exists` is false). -/
abbrev FS := String → Option (List LogLine)

/-- The store before any job ran: no log file exists. -/
def fsEmpty : FS := fun _ => none

/-- `OUTPUT_DIR` (server.py:28, default value). -/
def OUTPUT_DIR : String := "/data"

/-- `LOG_DIR = os.path.join(OUTPUT_DIR, "logs")` (server.py:30). -/
def LOG_DIR : String := OUTPUT_DIR ++ "/logs"

/-- `_log_path` (server.py:38-39): `os.path.join(LOG_DIR, f"{job_id}.log")`. -/
def _log_path (job_id : String) : String := LOG_DIR ++ "/" ++ job_id ++ ".log"

/-- `_log` (server.py:42-47): open the job's log file in append mode
(creating it if absent) and append one timestamped line.  The stdout
mirror (line 47) has no durable effect and is not represented. -/
def _log (fs : FS) (ts job_id msg : String) : FS :=
  fun p =>
    if p = _log_path job_id then
      some (((fs (_log_path job_id)).getD []) ++ [⟨ts, msg⟩])
    else fs p

/-- The lines currently in the log of `id` (empty if the file is absent). -/
def logContent (fs : FS) (id : String) : List LogLine :=
  (fs (_log_path id)).getD []

/-- One `_log` invocation, with the wall-clock timestamp it captured. -/
structure AppendCall where
  ts : String
  job_id : String
  msg : String
deriving DecidableEq, Repr

/-- Replay one append call against the store. -/
def applyCall (fs : FS) (c : AppendCall) : FS := _log fs c.ts c.job_id c.msg

/-- Replay a whole history of append calls, oldest first. -/
def applyTrace (fs : FS) (tr : List AppendCall) : FS := tr.foldl applyCall fs

/-- The line an append call produces. -/
def lineOf (c : AppendCall) : LogLine := ⟨c.ts, c.msg⟩

/-- The calls of a history addressed to one job identifier. -/
def forJob (id : String) (tr : List AppendCall) : List AppendCall :=
  tr.filter (fun c => c.job_id == id)

/- ---------------------------------------------------------------------
Basic facts about `_log_path` and `_log`.
--------------------------------------------------------------------- -/

theorem _log_path_inj (a b : String) (h : _log_path a = _log_path b) : a = b := by
  have hd : ((LOG_DIR ++ "/").data ++ (a.data ++ ".log".data))
      = ((LOG_DIR ++ "/").data ++ (b.data ++ ".log".data)) := by
    have := congrArg String.data h
    simpa [_log_path, String.data_append, List.append_assoc] using this
  have h1 : a.data ++ ".log".data = b.data ++ ".log".data :=
    List.append_cancel_left hd
  have h2 : a.data = b.data := List.append_cancel_right h1
  cases a; cases b
  exact congrArg String.mk h2

theorem logContent_log_self (fs : FS) (ts id msg : String) :
    logContent (_log fs ts id msg) id = logContent fs id ++ [⟨ts, msg⟩] := by
  simp [logContent, _log]

theorem logContent_log_other (fs : FS) (ts jid msg id : String) (h : id ≠ jid) :
    logContent (_log fs ts jid msg) id = logContent fs id := by
  have hp : _log_path id ≠ _log_path jid := fun hq => h (_log_path_inj _ _ hq)
  simp [logContent, _log, hp]

theorem mem_logContent_last (fs : FS) (ts id msg : String) :
    (⟨ts, msg⟩ : LogLine) ∈ logContent (_log fs ts id msg) id := by
  rw [logContent_log_self]
  exact List.mem_append_right _ (List.mem_singleton.mpr rfl)

/- ---------------------------------------------------------------------
`download_file` (server.py:223-232).
--------------------------------------------------------------------- -/

/-- `os.path.basename` on POSIX: everything after the last slash. -/
def basename (s : String) : String :=
  String.mk ((s.data.reverse.takeWhile (fun c => c != '/')).reverse)

/-- The three possible responses of `download_file`. -/
inductive DlResponse where
  | invalidName
  | notFound
  | file (path : String) (filename : String)
deriving DecidableEq, Repr

/-- `download_file` (server.py:223-232).  `isfile` is the
`os.path.isfile` oracle describing the current output directory. -/
def download_file (isfile : String → Bool) (name : String) : DlResponse :=
  let safe_name := basename name
  if safe_name ≠ name then DlResponse.invalidName
  else
    let path := OUTPUT_DIR ++ "/" ++ safe_name
    if !(isfile path) then DlResponse.notFound
    else DlResponse.file path safe_name

theorem slash_not_mem_basename (s : String) : '/' ∉ (basename s).data := by
  intro hmem
  have h1 : '/' ∈ s.data.reverse.takeWhile (fun c => c != '/') := by
    simpa [basename] using hmem
  have h2 := List.mem_takeWhile_imp h1
  simp at h2

theorem basename_ne_of_slash (name : String) (h : '/' ∈ name.data) :
    basename name ≠ name := by
  intro he
  exact slash_not_mem_basename name (by rw [he]; exact h)

/-- C10: `download_file` rejects with 400 exactly the names whose basename
differs from the name itself (hence every name containing a path
separator), answers 404 when no regular file of that name exists directly
in the output directory, and otherwise serves only a file located directly
in the output directory (its path is `OUTPUT_DIR/name` with a
separator-free `name`). -/
theorem download_file_guards (isfile : String → Bool) (name : String) :
    (download_file isfile name = DlResponse.invalidName ↔ basename name ≠ name)
    ∧ ('/' ∈ name.data → download_file isfile name = DlResponse.invalidName)
    ∧ (basename name = name → isfile (OUTPUT_DIR ++ "/" ++ name) = false →
        download_file isfile name = DlResponse.notFound)
    ∧ (∀ p fn, download_file isfile name = DlResponse.file p fn →
        p = OUTPUT_DIR ++ "/" ++ name ∧ fn = name ∧ isfile p = true ∧ '/' ∉ name.data) := by
  refine ⟨?_, ?_, ?_, ?_⟩
  · constructor
    · intro hr heq
      unfold download_file at hr
      rw [if_neg (by simp [heq])] at hr
      by_cases hf : isfile (OUTPUT_DIR ++ "/" ++ basename name)
      · simp [hf] at hr
      · simp [hf] at hr
    · intro hne
      unfold download_file
      rw [if_pos hne]
  · intro hs
    unfold download_file
    rw [if_pos (basename_ne_of_slash name hs)]
  · intro he hf
    unfold download_file
    rw [if_neg (by simp [he]), he, if_pos (by simp [hf])]
  · intro p fn hr
    unfold download_file at hr
    by_cases he : basename name ≠ name
    · rw [if_pos he] at hr; cases hr
    · push_neg at he
      rw [if_neg (by simpa using he)] at hr
      by_cases hf : isfile (OUTPUT_DIR ++ "/" ++ basename name)
      · rw [if_neg (by simp [hf])] at hr
        cases hr
        refine ⟨by rw [he], he, hf, ?_⟩
        intro hs
        exact basename_ne_of_slash name hs he
      · rw [if_pos (by simp [hf])] at hr; cases hr

theorem download_file_guards_witness :
    ('/' ∈ ("../model.ply".data))
    ∧ download_file (fun p => p == "/data/model.ply") "../model.ply"
        = DlResponse.invalidName
    ∧ download_file (fun p => p == "/data/model.ply") "model.ply"
        = DlResponse.file "/data/model.ply" "model.ply" := by
  refine ⟨by decide, ?_, by decide⟩
  exact (download_file_guards (fun p => p == "/data/model.ply") "../model.ply").2.1
    (by decide)

/- ---------------------------------------------------------------------
`_heartbeat` (server.py:65-79).

The loop is embedded as a trace over discrete instants: iteration with
check instant `q` tests the stop event at `q`, performs its `_log` append
at `q + 1` and sits in `stop_evt.wait(interval)` at `q + 2`; the next
check happens at `q + 3`.  One iteration thus spans one interval.  `fuel`
bounds how many iterations of the endless loop are unrolled.  The
`threading.Event` is the monotone boolean `eventIsSet setCalls`, where
`setCalls` lists the instants at which `set()` was called.
--------------------------------------------------------------------- -/

/-- The numbers `torch.cuda.memory_allocated()` / `memory_reserved()`
would return, in bytes. -/
structure MemSnap where
  alloc : Nat
  reserved : Nat
deriving DecidableEq, Repr

/-- The liveness message built in server.py:67-78.  `elapsedStr` stands for
the rendered `f"{elapsed:.1f}"`; the dict rendering keeps the shape of the
Python `repr` (quotes around keys omitted). -/
def heartbeatMsg (elapsedStr : String) (cuda : Bool)
    (memRes : Except String MemSnap) : String :=
  let mem : Option (Nat × Nat) :=
    if cuda then
      match memRes with
      | Except.ok m => some (m.alloc / (1024 * 1024), m.reserved / (1024 * 1024))
      | Except.error _ => none
    else none
  match mem with
  | some m =>
      "heartbeat: running, elapsed=" ++ elapsedStr ++ "s" ++
        ", cuda_mem(MB)=\x7balloc: " ++ toString m.1 ++
        ", reserved: " ++ toString m.2 ++ "\x7d"
  | none => "heartbeat: running, elapsed=" ++ elapsedStr ++ "s"

/-- Observable actions of the heartbeat loop, tagged with their instant. -/
inductive HbAction where
  | append (pos : Nat) (msg : String)
  | wait (pos : Nat)
deriving DecidableEq, Repr

/-- `threading.Event` state: set at instant `q` iff some `set()` call
happened at an instant `≤ q`.  A set event never resets. -/
def eventIsSet (setCalls : List Nat) (q : Nat) : Bool :=
  setCalls.any (fun p => decide (p ≤ q))

/-- `_heartbeat` (server.py:65-79) as a trace of appends and waits. -/
def _heartbeat (isSet : Nat → Bool) (cuda : Bool)
    (mem : Nat → Except String MemSnap) (elapsed : Nat → String) :
    Nat → Nat → List HbAction
  | 0, _ => []
  | fuel + 1, q =>
    if isSet q then []
    else
      HbAction.append (q + 1) (heartbeatMsg (elapsed q) cuda (mem q))
        :: HbAction.wait (q + 2)
        :: _heartbeat isSet cuda mem elapsed fuel (q + 3)

/-- Instants at which the loop performed a `_log` append. -/
def hbAppendPositions (tr : List HbAction) : List Nat :=
  tr.filterMap (fun a => match a with
    | HbAction.append pos _ => some pos
    | HbAction.wait _ => none)

theorem eventIsSet_mono (s : List Nat) {a b : Nat} (hab : a ≤ b)
    (h : eventIsSet s a = true) : eventIsSet s b = true := by
  simp only [eventIsSet, List.any_eq_true, decide_eq_true_eq] at *
  obtain ⟨p, hp, hle⟩ := h
  exact ⟨p, hp, le_trans hle hab⟩

theorem hb_exit_of_set (isSet : Nat → Bool) (cuda : Bool)
    (mem : Nat → Except String MemSnap) (elapsed : Nat → String)
    (fuel q : Nat) (h : isSet q = true) :
    _heartbeat isSet cuda mem elapsed fuel q = [] := by
  cases fuel <;> simp [_heartbeat, h]

theorem hb_late_le_one (s : List Nat) (cuda : Bool)
    (mem : Nat → Except String MemSnap) (elapsed : Nat → String) :
    ∀ fuel q,
      ((hbAppendPositions (_heartbeat (eventIsSet s) cuda mem elapsed fuel q)).filter
        (fun pos => eventIsSet s pos)).length ≤ 1
  | 0, q => by simp [_heartbeat, hbAppendPositions]
  | fuel + 1, q => by
    by_cases h : eventIsSet s q = true
    · simp [_heartbeat, h, hbAppendPositions]
    · rw [Bool.not_eq_true] at h
      by_cases h2 : eventIsSet s (q + 1) = true
      · have hrest : _heartbeat (eventIsSet s) cuda mem elapsed fuel (q + 3) = [] :=
          hb_exit_of_set _ _ _ _ fuel (q + 3)
            (eventIsSet_mono s (by omega) h2)
        simp [_heartbeat, h, hbAppendPositions, hrest, h2]
      · simp [_heartbeat, h, hbAppendPositions, h2]
        exact hb_late_le_one s cuda mem elapsed fuel (q + 3)

theorem hb_append_after_set_recent (s : List Nat) (cuda : Bool)
    (mem : Nat → Except String MemSnap) (elapsed : Nat → String) :
    ∀ fuel q,
      ∀ pos ∈ hbAppendPositions (_heartbeat (eventIsSet s) cuda mem elapsed fuel q),
        eventIsSet s pos = true → eventIsSet s (pos - 1) = false
  | 0, q => by simp [_heartbeat, hbAppendPositions]
  | fuel + 1, q => by
    by_cases h : eventIsSet s q = true
    · simp [_heartbeat, h, hbAppendPositions]
    · rw [Bool.not_eq_true] at h
      intro pos hmem hset
      simp only [_heartbeat, h, Bool.false_eq_true, if_false, hbAppendPositions,
        List.filterMap_cons] at hmem
      simp only [List.mem_cons] at hmem
      rcases hmem with hmem | hmem
      · subst hmem
        simpa using h
      · exact hb_append_after_set_recent s cuda mem elapsed fuel (q + 3) pos hmem hset

/-- Prefixes of character data survive appending more text on the right. -/
theorem str_prefix_append (pre a b : String) (h : pre.data <+: a.data) :
    pre.data <+: (a ++ b).data := by
  rw [String.data_append]
  exact h.trans (List.prefix_append _ _)

/-- C5: once the stop event is set, the heartbeat loop observes it within
one interval: among all instants at which the loop appends, at most one
lies at or after the event became set, and any such append happens one
instant after a check that still saw the event unset (i.e. strictly less
than one interval after the `set()`).  Setting the event at instant 0 —
before the loop starts — yields zero iterations, and issuing the same
`set()` twice leaves the event's behaviour unchanged (idempotence). -/
theorem heartbeat_stop_bounded_and_idempotent (setCalls : List Nat)
    (cuda : Bool) (mem : Nat → Except String MemSnap)
    (elapsed : Nat → String) (fuel : Nat) :
    ((hbAppendPositions (_heartbeat (eventIsSet setCalls) cuda mem elapsed fuel 0)).filter
        (fun pos => eventIsSet setCalls pos)).length ≤ 1
    ∧ (∀ pos ∈ hbAppendPositions (_heartbeat (eventIsSet setCalls) cuda mem elapsed fuel 0),
        eventIsSet setCalls pos = true → eventIsSet setCalls (pos - 1) = false)
    ∧ (eventIsSet setCalls 0 = true →
        _heartbeat (eventIsSet setCalls) cuda mem elapsed fuel 0 = [])
    ∧ (∀ p q, eventIsSet (p :: p :: setCalls) q = eventIsSet (p :: setCalls) q) := by
  refine ⟨hb_late_le_one setCalls cuda mem elapsed fuel 0,
    hb_append_after_set_recent setCalls cuda mem elapsed fuel 0,
    fun h => hb_exit_of_set _ _ _ _ fuel 0 h, ?_⟩
  intro p q
  simp only [eventIsSet, List.any_cons]
  cases hd : decide (p ≤ q) <;> simp

theorem heartbeat_stop_bounded_and_idempotent_witness :
    eventIsSet [0] 0 = true
    ∧ _heartbeat (eventIsSet [0]) false (fun _ => Except.error "x")
        (fun _ => "0.0") 5 0 = [] :=
  ⟨by decide,
   (heartbeat_stop_bounded_and_idempotent [0] false (fun _ => Except.error "x")
      (fun _ => "0.0") 5).2.2.1 (by decide)⟩

/-- C6: when the resource-usage snapshot collector raises, the heartbeat
iteration swallows the failure and still appends the plain elapsed-time
liveness line (no memory part); that line is a `heartbeat: running` line
and not an `ERROR` line; and the diagnostics outcome never influences the
loop's control flow — the instants at which the heartbeat appends are
identical for any two snapshot oracles, so the loop keeps running. -/
theorem heartbeat_swallows_diagnostics_failure (e elapsedStr : String) :
    heartbeatMsg elapsedStr true (Except.error e)
      = "heartbeat: running, elapsed=" ++ elapsedStr ++ "s"
    ∧ ("heartbeat: running".data <+: (heartbeatMsg elapsedStr true (Except.error e)).data)
    ∧ ¬ ("ERROR".data <+: (heartbeatMsg elapsedStr true (Except.error e)).data)
    ∧ (∀ (isSet : Nat → Bool) (cuda : Bool)
         (mem mem2 : Nat → Except String MemSnap)
         (elapsed : Nat → String) (fuel q : Nat),
        hbAppendPositions (_heartbeat isSet cuda mem elapsed fuel q)
          = hbAppendPositions (_heartbeat isSet cuda mem2 elapsed fuel q)) := by
  have hmsg : heartbeatMsg elapsedStr true (Except.error e)
      = "heartbeat: running, elapsed=" ++ elapsedStr ++ "s" := rfl
  refine ⟨hmsg, ?_, ?_, ?_⟩
  · rw [hmsg]
    exact str_prefix_append _ _ _
      (str_prefix_append _ _ _ ⟨", elapsed=".data, by decide⟩)
  · rw [hmsg]
    rintro ⟨t, ht⟩
    rw [String.data_append, String.data_append] at ht
    have hE : "ERROR".data = 'E' :: "RROR".data := by decide
    have hA : "heartbeat: running, elapsed=".data
        = 'h' :: "eartbeat: running, elapsed=".data := by decide
    rw [hE, hA] at ht
    simp only [List.cons_append] at ht
    injection ht with h1 _
    exact absurd h1 (by decide)
  · intro isSet cuda mem mem2 elapsed fuel
    induction fuel with
    | zero => intro q; rfl
    | succ f IH =>
      intro q
      by_cases h : isSet q = true
      · simp [_heartbeat, h]
      · rw [Bool.not_eq_true] at h
        simp only [_heartbeat, h, Bool.false_eq_true, if_false, hbAppendPositions,
          List.filterMap_cons]
        have := IH (q + 3)
        simp only [hbAppendPositions] at this
        rw [this]

theorem heartbeat_swallows_diagnostics_failure_witness :
    heartbeatMsg "3.2" true (Except.error "cuda oom")
      = "heartbeat: running, elapsed=3.2s"
    ∧ ¬ ("ERROR".data <+: (heartbeatMsg "3.2" true (Except.error "cuda oom")).data) :=
  ⟨(heartbeat_swallows_diagnostics_failure "cuda oom" "3.2").1.trans (by decide),
   (heartbeat_swallows_diagnostics_failure "cuda oom" "3.2").2.2.1⟩

/-- C9: entering the loop with the stop event unset, the very first action
is the append of a liveness line at instant 1, before the first
`stop_evt.wait` at instant 2; and every unrolling of the loop is a
sequence of append-then-wait blocks, one block (one appended line followed
by one interval wait) per iteration. -/
theorem heartbeat_first_append_before_wait (setCalls : List Nat)
    (cuda : Bool) (mem : Nat → Except String MemSnap)
    (elapsed : Nat → String) (fuel : Nat)
    (hstart : eventIsSet setCalls 0 = false) :
    (_heartbeat (eventIsSet setCalls) cuda mem elapsed (fuel + 1) 0
      = HbAction.append 1 (heartbeatMsg (elapsed 0) cuda (mem 0))
        :: HbAction.wait 2
        :: _heartbeat (eventIsSet setCalls) cuda mem elapsed fuel 3)
    ∧ (∀ fu q, ∃ its : List Nat,
        _heartbeat (eventIsSet setCalls) cuda mem elapsed fu q
          = (its.map (fun i =>
              [HbAction.append (i + 1) (heartbeatMsg (elapsed i) cuda (mem i)),
               HbAction.wait (i + 2)])).flatten) := by
  constructor
  · simp [_heartbeat, hstart]
  · intro fu
    induction fu with
    | zero => exact fun q => ⟨[], rfl⟩
    | succ f IH =>
      intro q
      by_cases h : eventIsSet setCalls q = true
      · exact ⟨[], by simp [_heartbeat, h]⟩
      · rw [Bool.not_eq_true] at h
        obtain ⟨its, hits⟩ := IH (q + 3)
        exact ⟨q :: its, by simp [_heartbeat, h, hits]⟩

theorem heartbeat_first_append_before_wait_witness :
    eventIsSet [] 0 = false
    ∧ _heartbeat (eventIsSet []) false (fun _ => Except.error "oom")
        (fun _ => "0.0") 1 0
      = HbAction.append 1 (heartbeatMsg "0.0" false (Except.error "oom"))
        :: HbAction.wait 2
        :: _heartbeat (eventIsSet []) false (fun _ => Except.error "oom")
            (fun _ => "0.0") 0 3 :=
  ⟨by decide,
   (heartbeat_first_append_before_wait [] false (fun _ => Except.error "oom")
      (fun _ => "0.0") 0 (by decide)).1⟩

/- ---------------------------------------------------------------------
Histories of `_log` calls: content, creation, interleavings.
--------------------------------------------------------------------- -/

theorem logContent_applyTrace :
    ∀ (tr : List AppendCall) (fs : FS) (id : String),
      logContent (applyTrace fs tr) id
        = logContent fs id ++ (forJob id tr).map lineOf
  | [], fs, id => by simp [applyTrace, forJob]
  | c :: tr, fs, id => by
    rw [show applyTrace fs (c :: tr) = applyTrace (applyCall fs c) tr from rfl,
      logContent_applyTrace tr (applyCall fs c) id]
    by_cases h : c.job_id = id
    · subst h
      rw [show logContent (applyCall fs c) c.job_id
            = logContent fs c.job_id ++ [lineOf c] from
          logContent_log_self fs c.ts c.job_id c.msg]
      simp [forJob, List.filter_cons, List.append_assoc, lineOf]
    · rw [show logContent (applyCall fs c) id = logContent fs id from
        logContent_log_other fs c.ts c.job_id c.msg id (Ne.symm h)]
      simp [forJob, List.filter_cons, h]

theorem applyCall_path_other (fs : FS) (c : AppendCall) (id : String)
    (h : c.job_id ≠ id) :
    applyCall fs c (_log_path id) = fs (_log_path id) := by
  have hp : _log_path id ≠ _log_path c.job_id :=
    fun hq => h ((_log_path_inj _ _ hq).symm)
  simp [applyCall, _log, hp]

theorem applyTrace_path :
    ∀ (tr : List AppendCall) (fs : FS) (id : String),
      applyTrace fs tr (_log_path id)
        = if forJob id tr = [] then fs (_log_path id)
          else some (((fs (_log_path id)).getD []) ++ (forJob id tr).map lineOf)
  | [], fs, id => by simp [applyTrace, forJob]
  | c :: tr, fs, id => by
    rw [show applyTrace fs (c :: tr) = applyTrace (applyCall fs c) tr from rfl,
      applyTrace_path tr (applyCall fs c) id]
    by_cases h : c.job_id = id
    · subst h
      have hself : applyCall fs c (_log_path c.job_id)
          = some (((fs (_log_path c.job_id)).getD []) ++ [lineOf c]) := by
        simp [applyCall, _log, lineOf]
      by_cases hfj : forJob c.job_id tr = []
      · simp [hself, forJob, List.filter_cons, hfj, lineOf]
      · simp [hself, forJob, List.filter_cons, hfj, List.append_assoc, lineOf]
    · have hother := applyCall_path_other fs c id h
      simp [hother, forJob, List.filter_cons, h]

/-- The subscribe-time outcome of `stream_logs` (server.py:235-240):
404 when the log file does not exist, otherwise a stream whose replay
starts from the lines present at open time. -/
inductive StreamResult where
  | notFound
  | stream (snapshot : List LogLine)
deriving DecidableEq, Repr

/-- `stream_logs` (server.py:235-240): `os.path.exists` decides 404. -/
def stream_logs (fs : FS) (job_id : String) : StreamResult :=
  match fs (_log_path job_id) with
  | none => StreamResult.notFound
  | some content => StreamResult.stream content

/-- C3: against a store grown from empty by `_log` calls, subscribing
fails with `NotFound` exactly when no line was ever appended for the
identifier (the log artifact does not exist); otherwise the subscription
succeeds and yields a stream (opened on the appended lines). -/
theorem stream_logs_notfound_iff (tr : List AppendCall) (id : String) :
    (stream_logs (applyTrace fsEmpty tr) id = StreamResult.notFound
      ↔ forJob id tr = [])
    ∧ (forJob id tr ≠ [] →
        stream_logs (applyTrace fsEmpty tr) id
          = StreamResult.stream ((forJob id tr).map lineOf)) := by
  have hp := applyTrace_path tr fsEmpty id
  by_cases hfj : forJob id tr = []
  · rw [if_pos hfj] at hp
    simp [stream_logs, hp, hfj, fsEmpty]
  · rw [if_neg hfj] at hp
    simp [stream_logs, hp, hfj, fsEmpty]

theorem stream_logs_notfound_iff_witness :
    stream_logs (applyTrace fsEmpty [⟨"t1", "job-a", "START t2s"⟩]) "job-b"
      = StreamResult.notFound
    ∧ forJob "job-a" [(⟨"t1", "job-a", "START t2s"⟩ : AppendCall)] ≠ []
    ∧ stream_logs (applyTrace fsEmpty [⟨"t1", "job-a", "START t2s"⟩]) "job-a"
      = StreamResult.stream [⟨"t1", "START t2s"⟩] :=
  ⟨(stream_logs_notfound_iff [⟨"t1", "job-a", "START t2s"⟩] "job-b").1.mpr
      (by decide),
   by decide,
   ((stream_logs_notfound_iff [⟨"t1", "job-a", "START t2s"⟩] "job-a").2
      (by decide)).trans (by decide)⟩

/-- C7: `_log` is append-only — one call appends exactly one timestamped
line at the end of the addressed log and leaves every other log
untouched; the log artifact does not exist before the first append and
exists right after it; and under any later history of appends the current
content persists unchanged as a prefix (nothing is ever deleted or
truncated by the subsystem). -/
theorem log_append_only (fs : FS) (c : AppendCall) :
    logContent (applyCall fs c) c.job_id = logContent fs c.job_id ++ [lineOf c]
    ∧ (∀ id, id ≠ c.job_id → logContent (applyCall fs c) id = logContent fs id)
    ∧ ((fsEmpty (_log_path c.job_id)).isSome = false)
    ∧ ((applyCall fsEmpty c (_log_path c.job_id)).isSome = true)
    ∧ (∀ tr id, logContent fs id <+: logContent (applyTrace fs tr) id) := by
  refine ⟨?_, ?_, rfl, ?_, ?_⟩
  · simpa [applyCall, lineOf] using logContent_log_self fs c.ts c.job_id c.msg
  · intro id h
    exact logContent_log_other fs c.ts c.job_id c.msg id h
  · simp [applyCall, _log]
  · intro tr id
    rw [logContent_applyTrace]
    exact List.prefix_append _ _

theorem log_append_only_witness :
    logContent (applyCall fsEmpty ⟨"t0", "job-1", "START t2s"⟩) "job-1"
      = [⟨"t0", "START t2s"⟩]
    ∧ logContent (applyCall fsEmpty ⟨"t0", "job-1", "START t2s"⟩) "job-2" = [] :=
  ⟨((log_append_only fsEmpty ⟨"t0", "job-1", "START t2s"⟩).1).trans (by decide),
   ((log_append_only fsEmpty ⟨"t0", "job-1", "START t2s"⟩).2.1 "job-2"
      (by decide)).trans (by decide)⟩

/- ---------------------------------------------------------------------
Interleavings of several writers (Heartbeat Monitor and Job Runner write
concurrently; an execution is some interleaving of their call orders).
--------------------------------------------------------------------- -/

/-- `Interleave xs ys zs`: `zs` is a merge of `xs` and `ys` preserving the
relative order inside each. -/
inductive Interleave {α : Type} : List α → List α → List α → Prop where
  | nil : Interleave [] [] []
  | left {x : α} {xs ys zs : List α} :
      Interleave xs ys zs → Interleave (x :: xs) ys (x :: zs)
  | right {y : α} {xs ys zs : List α} :
      Interleave xs ys zs → Interleave xs (y :: ys) (y :: zs)

/-- `InterleaveN ws tr`: `tr` is an interleaving of the N writer
sequences `ws`. -/
def InterleaveN {α : Type} : List (List α) → List α → Prop
  | [], tr => tr = []
  | w :: ws, tr => ∃ rest, Interleave w rest tr ∧ InterleaveN ws rest

theorem interleave_perm {α : Type} {xs ys zs : List α}
    (h : Interleave xs ys zs) : zs.Perm (xs ++ ys) := by
  induction h with
  | nil => exact List.Perm.refl _
  | left h IH => exact IH.cons _
  | right h IH => exact (IH.cons _).trans List.perm_middle.symm

theorem interleave_sublist_left {α : Type} {xs ys zs : List α}
    (h : Interleave xs ys zs) : xs.Sublist zs := by
  induction h with
  | nil => exact List.Sublist.refl _
  | left h IH => exact IH.cons₂ _
  | right h IH => exact IH.cons _

theorem interleave_sublist_right {α : Type} {xs ys zs : List α}
    (h : Interleave xs ys zs) : ys.Sublist zs := by
  induction h with
  | nil => exact List.Sublist.refl _
  | left h IH => exact IH.cons _
  | right h IH => exact IH.cons₂ _

theorem interleaveN_perm {α : Type} :
    ∀ (ws : List (List α)) (tr : List α), InterleaveN ws tr → tr.Perm ws.flatten
  | [], tr, h => by
    simp only [InterleaveN] at h
    simp [h]
  | w :: ws, tr, h => by
    obtain ⟨rest, hI, hN⟩ := h
    have h2 := interleaveN_perm ws rest hN
    simpa using (interleave_perm hI).trans (h2.append_left w)

theorem interleaveN_sublist {α : Type} :
    ∀ (ws : List (List α)) (tr w : List α),
      InterleaveN ws tr → w ∈ ws → w.Sublist tr
  | [], tr, w, _, hmem => by simp at hmem
  | wh :: ws, tr, w, h, hmem => by
    obtain ⟨rest, hI, hN⟩ := h
    rcases List.mem_cons.mp hmem with rfl | hmem2
    · exact interleave_sublist_left hI
    · exact (interleaveN_sublist ws rest w hN hmem2).trans
        (interleave_sublist_right hI)

theorem filter_join {α : Type} (p : α → Bool) :
    ∀ (l : List (List α)), l.flatten.filter p = (l.map (fun w => w.filter p)).flatten
  | [] => rfl
  | w :: l => by simp [List.filter_append, filter_join p l]

/-- C8: for any interleaving of N writers' append sequences, the
resulting Job Log holds exactly the lines of the interleaved history for
that identifier — every appended line intact, none lost, none invented —
in the history's order; each writer's own lines occur in the log in that
writer's call order (sublist); the multiset of the log's calls is exactly
the union of all writers' calls for the identifier; and two appends to
different identifiers commute (neither blocks or disturbs the other). -/
theorem append_interleaving_exact_union (ws : List (List AppendCall))
    (tr : List AppendCall) (id : String) (h : InterleaveN ws tr) :
    logContent (applyTrace fsEmpty tr) id = (forJob id tr).map lineOf
    ∧ (forJob id tr).Perm ((ws.map (forJob id)).flatten)
    ∧ (∀ w ∈ ws,
        ((forJob id w).map lineOf).Sublist (logContent (applyTrace fsEmpty tr) id))
    ∧ (∀ (fs : FS) (c₁ c₂ : AppendCall), c₁.job_id ≠ c₂.job_id →
        ∀ p, applyCall (applyCall fs c₁) c₂ p = applyCall (applyCall fs c₂) c₁ p) := by
  have hcontent : logContent (applyTrace fsEmpty tr) id = (forJob id tr).map lineOf := by
    rw [logContent_applyTrace]
    simp [logContent, fsEmpty]
  refine ⟨hcontent, ?_, ?_, ?_⟩
  · have h2 := (interleaveN_perm ws tr h).filter (fun c => c.job_id == id)
    rw [filter_join] at h2
    exact h2
  · intro w hw
    rw [hcontent]
    exact ((interleaveN_sublist ws tr w h hw).filter _).map lineOf
  · intro fs c₁ c₂ hne p
    have hp12 : _log_path c₁.job_id ≠ _log_path c₂.job_id :=
      fun hq => hne (_log_path_inj _ _ hq)
    by_cases h1 : p = _log_path c₁.job_id
    · by_cases h2 : p = _log_path c₂.job_id
      · exact absurd (h1.symm.trans h2) hp12
      · subst h1
        simp [applyCall, _log, hp12]
    · by_cases h2 : p = _log_path c₂.job_id
      · subst h2
        simp [applyCall, _log, hp12.symm]
      · simp [applyCall, _log, h1, h2]

theorem c8_interleaving_example :
    InterleaveN
      ([[⟨"t1", "job-1", "START t2s"⟩], [⟨"t2", "job-1", "heartbeat: running"⟩]] :
        List (List AppendCall))
      [⟨"t1", "job-1", "START t2s"⟩, ⟨"t2", "job-1", "heartbeat: running"⟩] :=
  ⟨[⟨"t2", "job-1", "heartbeat: running"⟩],
   Interleave.left (Interleave.right Interleave.nil),
   [], Interleave.left Interleave.nil, rfl⟩

theorem append_interleaving_exact_union_witness :
    InterleaveN
      ([[⟨"t1", "job-1", "START t2s"⟩], [⟨"t2", "job-1", "heartbeat: running"⟩]] :
        List (List AppendCall))
      [⟨"t1", "job-1", "START t2s"⟩, ⟨"t2", "job-1", "heartbeat: running"⟩]
    ∧ logContent
        (applyTrace fsEmpty
          [⟨"t1", "job-1", "START t2s"⟩, ⟨"t2", "job-1", "heartbeat: running"⟩])
        "job-1"
      = [⟨"t1", "START t2s"⟩, ⟨"t2", "heartbeat: running"⟩] :=
  ⟨c8_interleaving_example,
   ((append_interleaving_exact_union _ _ "job-1" c8_interleaving_example).1).trans
     (by decide)⟩

/- ---------------------------------------------------------------------
`event_stream` (server.py:242-258).

The generator reads the next line at its cursor if one is visible,
otherwise sleeps one polling interval and retries (`for line in f`
followed by the tell/readline/seek loop behave identically under this
unified view: read-if-available, else sleep).  Writers appending
concurrently are modelled by a growth schedule: at poll step `n` the file
holds `tailSched L0 g n` — the `L0` lines present at subscribe time plus
everything appended since (`g i` = lines appended during step `i`), so
the content only ever grows by appends at the end.
--------------------------------------------------------------------- -/

/-- One observable action of the generator: an SSE frame or a 1s sleep. -/
inductive TailOut where
  | yield (s : String)
  | sleep
deriving DecidableEq, Repr

/-- The SSE frame for one log line: `f"data: {line.rstrip()}\n\n"` where
the file line is `[ts] msg`. -/
def sseFrame (l : LogLine) : String :=
  "data: [" ++ l.ts ++ "] " ++ l.msg ++ "\n\n"

/-- One step of the generator at cursor `pos` over current content. -/
def event_stream_step (content : List LogLine) (pos : Nat) : TailOut × Nat :=
  match content[pos]? with
  | some l => (TailOut.yield (sseFrame l), pos + 1)
  | none => (TailOut.sleep, pos)

/-- The log content visible at poll step `n`. -/
def tailSched (L0 : List LogLine) (g : Nat → List LogLine) (n : Nat) : List LogLine :=
  L0 ++ ((List.range n).map g).flatten

/-- Run the generator for `n` steps; returns the emitted actions and the
final cursor. -/
def event_stream_run (L0 : List LogLine) (g : Nat → List LogLine) :
    Nat → List TailOut × Nat
  | 0 => ([], 0)
  | n + 1 =>
    let r := event_stream_run L0 g n
    let s := event_stream_step (tailSched L0 g n) r.2
    (r.1 ++ [s.1], s.2)

/-- The frames actually handed to the subscriber, in order. -/
def yieldsOf (outs : List TailOut) : List String :=
  outs.filterMap (fun o => match o with
    | TailOut.yield s => some s
    | TailOut.sleep => none)

theorem tailSched_succ (L0 : List LogLine) (g : Nat → List LogLine) (n : Nat) :
    tailSched L0 g (n + 1) = tailSched L0 g n ++ g n := by
  simp [tailSched, List.range_succ, List.append_assoc]

theorem take_append_left_of_le {α : Type} (l t : List α) (m : Nat)
    (h : m ≤ l.length) : (l ++ t).take m = l.take m := by
  rw [List.take_append_eq_append_take, Nat.sub_eq_zero_of_le h]
  simp

theorem take_succ_of_lt {α : Type} :
    ∀ (l : List α) (n : Nat) (h : n < l.length),
      l.take (n + 1) = l.take n ++ [l.get ⟨n, h⟩]
  | [], n, h => by simp at h
  | a :: l, 0, _ => by simp
  | a :: l, n + 1, h => by
    have hn : n < l.length := by simpa using h
    have IH := take_succ_of_lt l n hn
    simp only [List.take_succ_cons, IH]
    simp

theorem yieldsOf_append (a b : List TailOut) :
    yieldsOf (a ++ b) = yieldsOf a ++ yieldsOf b := by
  simp [yieldsOf]

theorem event_stream_run_inv (L0 : List LogLine) (g : Nat → List LogLine) :
    ∀ n : Nat,
      (event_stream_run L0 g n).1.length = n
      ∧ yieldsOf (event_stream_run L0 g n).1
          = ((tailSched L0 g n).take (event_stream_run L0 g n).2).map sseFrame
      ∧ (event_stream_run L0 g n).2 ≤ (tailSched L0 g n).length
  | 0 => by simp [event_stream_run, yieldsOf]
  | n + 1 => by
    obtain ⟨h1, h2, h3⟩ := event_stream_run_inv L0 g n
    by_cases hlt : (event_stream_run L0 g n).2 < (tailSched L0 g n).length
    · have hget : (tailSched L0 g n)[(event_stream_run L0 g n).2]?
          = some ((tailSched L0 g n).get ⟨(event_stream_run L0 g n).2, hlt⟩) := by
        simp [List.getElem?_eq_getElem hlt]
      refine ⟨?_, ?_, ?_⟩
      · simp only [event_stream_run]
        simp [h1]
      · simp only [event_stream_run, event_stream_step, hget]
        rw [yieldsOf_append, h2, tailSched_succ,
          take_append_left_of_le _ _ _ hlt,
          take_succ_of_lt _ _ hlt, List.map_append]
        simp [yieldsOf]
      · simp only [event_stream_run, event_stream_step, hget]
        rw [tailSched_succ]
        simp only [List.length_append]
        omega
    · have hge : (tailSched L0 g n).length ≤ (event_stream_run L0 g n).2 :=
        Nat.le_of_not_lt hlt
      have hget : (tailSched L0 g n)[(event_stream_run L0 g n).2]? = none :=
        List.getElem?_eq_none hge
      refine ⟨?_, ?_, ?_⟩
      · simp only [event_stream_run]
        simp [h1]
      · simp only [event_stream_run, event_stream_step, hget]
        rw [yieldsOf_append, h2, tailSched_succ,
          take_append_left_of_le _ _ _ h3]
        simp [yieldsOf]
      · simp only [event_stream_run, event_stream_step, hget]
        rw [tailSched_succ]
        simp only [List.length_append]
        omega

/-- C4: against any growth schedule extending the `k` lines present at
subscribe time, the generator emits exactly one action per poll step (it
never terminates of its own accord); the frames yielded so far are
exactly the first `cursor` lines of the current log, verbatim and in
append order — hence once the cursor has passed the subscribe-time
snapshot, the first `k` frames are exactly those `k` lines, before any
line appended afterwards; the cursor never overtakes the log; and a step
that finds no new data emits exactly one bounded sleep (1 s poll). -/
theorem event_stream_replays_then_follows (L0 : List LogLine)
    (g : Nat → List LogLine) (n : Nat) :
    (event_stream_run L0 g n).1.length = n
    ∧ yieldsOf (event_stream_run L0 g n).1
        = ((tailSched L0 g n).take (event_stream_run L0 g n).2).map sseFrame
    ∧ (event_stream_run L0 g n).2 ≤ (tailSched L0 g n).length
    ∧ (L0.length ≤ (event_stream_run L0 g n).2 →
        (yieldsOf (event_stream_run L0 g n).1).take L0.length = L0.map sseFrame)
    ∧ ((event_stream_run L0 g n).2 = (tailSched L0 g n).length →
        (event_stream_step (tailSched L0 g n) (event_stream_run L0 g n).2).1
          = TailOut.sleep) := by
  obtain ⟨h1, h2, h3⟩ := event_stream_run_inv L0 g n
  refine ⟨h1, h2, h3, ?_, ?_⟩
  · intro hk
    have htake : (tailSched L0 g n).take L0.length = L0 := by
      rw [tailSched, take_append_left_of_le _ _ _ (le_refl _), List.take_length]
    rw [h2, ← List.map_take, List.take_take, min_eq_left hk, htake]
  · intro hp
    simp [event_stream_step, List.getElem?_eq_none hp.ge]

theorem event_stream_replays_then_follows_witness :
    ([⟨"t1", "a"⟩, ⟨"t2", "b"⟩] : List LogLine).length
        ≤ (event_stream_run [⟨"t1", "a"⟩, ⟨"t2", "b"⟩] (fun _ => [⟨"t3", "c"⟩]) 4).2
    ∧ (yieldsOf
        (event_stream_run [⟨"t1", "a"⟩, ⟨"t2", "b"⟩] (fun _ => [⟨"t3", "c"⟩]) 4).1).take
          ([⟨"t1", "a"⟩, ⟨"t2", "b"⟩] : List LogLine).length
      = ([⟨"t1", "a"⟩, ⟨"t2", "b"⟩] : List LogLine).map sseFrame :=
  ⟨by decide,
   (event_stream_replays_then_follows [⟨"t1", "a"⟩, ⟨"t2", "b"⟩]
      (fun _ => [⟨"t3", "c"⟩]) 4).2.2.2.1 (by decide)⟩

/- ---------------------------------------------------------------------
The job handlers `generate_text` (server.py:87-139) and `generate_image`
(server.py:142-194).

External collaborators are oracles in `Env`: each `Option String` field,
when `some e`, means that call raised an exception with message `e`
(caught by the handler's `try/except`); `saveOutcome` covers the
`result.save` branches of server.py:122-132.  The handler state tracks
the store, a step counter feeding the timestamp clock, and the heartbeat
session: `hbStarted` becomes true when `hb_thr.start()` runs,
`hbStopSet` when `hb_stop.set()` runs.  `uuid.uuid4()` (the first
statement of the `try` block, infallible) is the `uid` parameter.
--------------------------------------------------------------------- -/

/-- Python rendering of booleans inside f-strings. -/
def pyBool (b : Bool) : String := if b then "True" else "False"

/-- Behaviour of `result.save(ply_path)` (server.py:122-132). -/
inductive SaveOutcome where
  | ok
  | attrErrToPly
  | attrErrNoToPly
  | raises (msg : String)
deriving DecidableEq, Repr

/-- Oracle for every external collaborator a handler invocation touches. -/
structure Env where
  imageErr : Option String
  initRaises : Option String
  genRaises : Option String
  o3dImportErr : Option String
  writeMeshRaises : Option String
  saveOutcome : SaveOutcome
  elapsedStr : String
  tbStr : String
deriving Repr

/-- The handler's HTTP response: a success dict or a `JSONResponse`. -/
inductive Response where
  | ok (typ path job_id : String)
  | err (status : Nat) (error : String) (job_id : Option String)
deriving DecidableEq, Repr

/-- The `job_id` carried by a response, in both success and error shape. -/
def respJobId : Response → Option String
  | Response.ok _ _ j => some j
  | Response.err _ _ j => j

/-- Handler-visible state: the store, the timestamp step counter, and the
heartbeat session flags. -/
structure St where
  fs : FS
  time : Nat
  hbStarted : Bool
  hbStopSet : Bool

/-- One `_log(uid, msg)` call from the handler body. -/
def stLog (clock : Nat → String) (job_id msg : String) (s : St) : St :=
  { s with fs := _log s.fs (clock s.time) job_id msg, time := s.time + 1 }

/-- The `except Exception` block (server.py:136-139 and 191-194): log the
error with its traceback and answer 500 with the job id.  Note it does
not touch the stop event. -/
def except_handler (clock : Nat → String) (uid e tb : String) (s : St) :
    Response × St :=
  (Response.err 500 e (some uid), stLog clock uid ("ERROR: " ++ e ++ "\n" ++ tb) s)

/-- The shared tail of both handlers (server.py:106-135 / 164-190):
save the result as mesh or splat, set the stop event, log the terminal
line, and answer. -/
def save_and_finish (clock : Nat → String) (uid : String) (return_mesh : Bool)
    (env : Env) (s : St) : Response × St :=
  if return_mesh then
    match env.o3dImportErr with
    | some e =>
      let s1 := { s with hbStopSet := true }
      let s2 := stLog clock uid ("ERROR: Open3D import failed: " ++ e) s1
      (Response.err 500 ("Open3D import failed: " ++ e) (some uid), s2)
    | none =>
      match env.writeMeshRaises with
      | some e => except_handler clock uid e env.tbStr s
      | none =>
        let mesh_path := OUTPUT_DIR ++ "/" ++ uid ++ ".ply"
        let s1 := { s with hbStopSet := true }
        let s2 := stLog clock uid
          ("DONE in " ++ env.elapsedStr ++ "s -> " ++ mesh_path) s1
        (Response.ok "mesh" mesh_path uid, s2)
  else
    let ply_path := OUTPUT_DIR ++ "/" ++ uid ++ ".ply"
    match env.saveOutcome with
    | SaveOutcome.ok =>
      let s1 := { s with hbStopSet := true }
      let s2 := stLog clock uid
        ("DONE in " ++ env.elapsedStr ++ "s -> " ++ ply_path) s1
      (Response.ok "splat" ply_path uid, s2)
    | SaveOutcome.attrErrToPly =>
      let s1 := { s with hbStopSet := true }
      let s2 := stLog clock uid
        ("DONE in " ++ env.elapsedStr ++ "s -> " ++ ply_path) s1
      (Response.ok "splat" ply_path uid, s2)
    | SaveOutcome.attrErrNoToPly =>
      let s1 := { s with hbStopSet := true }
      let s2 := stLog clock uid "ERROR: Unknown result type; cannot save .ply" s1
      (Response.err 500 "Unknown result type; cannot save .ply" (some uid), s2)
    | SaveOutcome.raises e => except_handler clock uid e env.tbStr s

/-- `generate_text` (server.py:87-139). -/
def generate_text (clock : Nat → String) (uid : String)
    (low_vram return_mesh inpaint_bg : Bool) (env : Env) (s0 : St) :
    Response × St :=
  let s1 := stLog clock uid
    ("START text generation: low_vram=" ++ pyBool low_vram
      ++ " return_mesh=" ++ pyBool return_mesh
      ++ " inpaint_bg=" ++ pyBool inpaint_bg) s0
  let s2 := { s1 with hbStarted := true }
  match env.initRaises with
  | some e => except_handler clock uid e env.tbStr s2
  | none =>
    let s3 := stLog clock uid "WorldGen initialized" s2
    match env.genRaises with
    | some e => except_handler clock uid e env.tbStr s3
    | none =>
      let s4 := stLog clock uid "World generated; saving output" s3
      save_and_finish clock uid return_mesh env s4

/-- `generate_image` (server.py:142-194); the extra first step is
`image.read()` / `Image.open` (server.py:158-159). -/
def generate_image (clock : Nat → String) (uid : String)
    (prompt : Option String) (low_vram return_mesh inpaint_bg : Bool)
    (env : Env) (s0 : St) : Response × St :=
  let s1 := stLog clock uid
    ("START image generation: low_vram=" ++ pyBool low_vram
      ++ " return_mesh=" ++ pyBool return_mesh
      ++ " inpaint_bg=" ++ pyBool inpaint_bg) s0
  let s2 := { s1 with hbStarted := true }
  match env.imageErr with
  | some e => except_handler clock uid e env.tbStr s2
  | none =>
    match env.initRaises with
    | some e => except_handler clock uid e env.tbStr s2
    | none =>
      let s3 := stLog clock uid "WorldGen initialized" s2
      match env.genRaises with
      | some e => except_handler clock uid e env.tbStr s3
      | none =>
        let s4 := stLog clock uid "World generated; saving output" s3
        save_and_finish clock uid return_mesh env s4

theorem done_msg_starts (a b : String) :
    "DONE".data <+: ("DONE in " ++ a ++ "s -> " ++ b).data :=
  str_prefix_append _ _ _ (str_prefix_append _ _ _
    (str_prefix_append _ _ _ ⟨" in ".data, by decide⟩))

theorem err_msg_starts (e tb : String) :
    "ERROR".data <+: ("ERROR: " ++ e ++ "\n" ++ tb).data :=
  str_prefix_append _ _ _ (str_prefix_append _ _ _
    (str_prefix_append _ _ _ ⟨": ".data, by decide⟩))

theorem err_open3d_msg_starts (e : String) :
    "ERROR".data <+: ("ERROR: Open3D import failed: " ++ e).data :=
  str_prefix_append _ _ _ ⟨": Open3D import failed: ".data, by decide⟩

theorem err_unknown_msg_starts :
    "ERROR".data <+: ("ERROR: Unknown result type; cannot save .ply" : String).data :=
  ⟨": Unknown result type; cannot save .ply".data, by decide⟩

theorem except_handler_spec (clock : Nat → String) (uid e tb : String) (s : St) :
    respJobId (except_handler clock uid e tb s).1 = some uid
    ∧ ∃ l ∈ logContent (except_handler clock uid e tb s).2.fs uid,
        ("DONE".data <+: l.msg.data ∨ "ERROR".data <+: l.msg.data) :=
  ⟨rfl, ⟨_, mem_logContent_last _ _ _ _, Or.inr (err_msg_starts e tb)⟩⟩

theorem save_and_finish_spec (clock : Nat → String) (uid : String) (rm : Bool)
    (env : Env) (s : St) :
    respJobId (save_and_finish clock uid rm env s).1 = some uid
    ∧ ∃ l ∈ logContent (save_and_finish clock uid rm env s).2.fs uid,
        ("DONE".data <+: l.msg.data ∨ "ERROR".data <+: l.msg.data) := by
  rcases env with ⟨ie, ir, gr, oe, wm, so, es, tb⟩
  cases rm
  · cases so with
    | ok => exact ⟨rfl, ⟨_, mem_logContent_last _ _ _ _, Or.inl (done_msg_starts _ _)⟩⟩
    | attrErrToPly =>
      exact ⟨rfl, ⟨_, mem_logContent_last _ _ _ _, Or.inl (done_msg_starts _ _)⟩⟩
    | attrErrNoToPly =>
      exact ⟨rfl, ⟨_, mem_logContent_last _ _ _ _, Or.inr err_unknown_msg_starts⟩⟩
    | raises e => exact except_handler_spec clock uid e tb _
  · cases oe with
    | some e =>
      exact ⟨rfl, ⟨_, mem_logContent_last _ _ _ _, Or.inr (err_open3d_msg_starts e)⟩⟩
    | none =>
      cases wm with
      | some e => exact except_handler_spec clock uid e tb _
      | none =>
        exact ⟨rfl, ⟨_, mem_logContent_last _ _ _ _, Or.inl (done_msg_starts _ _)⟩⟩

/-- C2: every invocation of either handler — under every collaborator
behaviour, including the external generator raising before producing
output — returns a response carrying the job identifier issued at step 1,
and afterwards the job's log contains a terminal line whose message
begins with `DONE` or `ERROR`. -/
theorem run_returns_identifier_and_terminal_line (clock : Nat → String)
    (uid : String) (low_vram return_mesh inpaint_bg : Bool)
    (prompt : Option String) (env : Env) (s0 : St) :
    (respJobId (generate_text clock uid low_vram return_mesh inpaint_bg env s0).1
        = some uid
      ∧ ∃ l ∈ logContent
            (generate_text clock uid low_vram return_mesh inpaint_bg env s0).2.fs uid,
          ("DONE".data <+: l.msg.data ∨ "ERROR".data <+: l.msg.data))
    ∧ (respJobId
          (generate_image clock uid prompt low_vram return_mesh inpaint_bg env s0).1
        = some uid
      ∧ ∃ l ∈ logContent
            (generate_image clock uid prompt low_vram return_mesh inpaint_bg env s0).2.fs
            uid,
          ("DONE".data <+: l.msg.data ∨ "ERROR".data <+: l.msg.data)) := by
  rcases env with ⟨ie, ir, gr, oe, wm, so, es, tb⟩
  constructor
  · cases ir with
    | some e => exact except_handler_spec clock uid e tb _
    | none =>
      cases gr with
      | some e => exact except_handler_spec clock uid e tb _
      | none => exact save_and_finish_spec clock uid return_mesh _ _
  · cases ie with
    | some e => exact except_handler_spec clock uid e tb _
    | none =>
      cases ir with
      | some e => exact except_handler_spec clock uid e tb _
      | none =>
        cases gr with
        | some e => exact except_handler_spec clock uid e tb _
        | none => exact save_and_finish_spec clock uid return_mesh _ _

/-- C1: the claim says the stop event is set before the handler returns
on every exit path.  The embedded code witnesses the opposite on the
exception path: when the external generation collaborator raises, the
`except` block (server.py:136-139 / 191-194) logs `ERROR` and returns
without calling `hb_stop.set()`, so the handler returns with the
heartbeat started and the stop event still unset — while on a normal
path the event is indeed set before returning. -/
theorem generate_exception_leaves_heartbeat_running :
    ((generate_text (fun _ => "ts") "job-1" false false false
        ⟨none, none, some "boom", none, none, SaveOutcome.ok, "1.0", "Traceback"⟩
        ⟨fsEmpty, 0, false, false⟩).2.hbStarted = true)
    ∧ ((generate_text (fun _ => "ts") "job-1" false false false
        ⟨none, none, some "boom", none, none, SaveOutcome.ok, "1.0", "Traceback"⟩
        ⟨fsEmpty, 0, false, false⟩).2.hbStopSet = false)
    ∧ ((generate_image (fun _ => "ts") "job-1" none false false false
        ⟨some "bad image", none, none, none, none, SaveOutcome.ok, "1.0", "Traceback"⟩
        ⟨fsEmpty, 0, false, false⟩).2.hbStopSet = false)
    ∧ ((generate_text (fun _ => "ts") "job-1" false false false
        ⟨none, none, none, none, none, SaveOutcome.ok, "1.0", "Traceback"⟩
        ⟨fsEmpty, 0, false, false⟩).2.hbStopSet = true) :=
  ⟨rfl, rfl, rfl, rfl⟩
